import Mathlib

/-!
# Verification of the unm-frame sound-effect engine

A shallow embedding of the audio subsystem of the `unm-frame` repository:

* `unm-sfx/src/mixer.rs` — the real-time voice mixer (`Mixer::mix`),
* `unm-sfx/src/atlas.rs` — the sample atlas builder
  (`SoundAtlas::build_from_sources`, `SoundAtlas::perform_resample`),
* `unm-tools/src/id_map.rs` — the handle allocator (`IdMap`),
* `unm-sfx/src/backend/cpal.rs` — the stream supervisor (`Player`).

Samples (`f32` in the source) are modelled as exact rationals; the claims about
the mixer and the atlas layout concern which indices receive which
contributions, not rounding.  The one computation whose result genuinely
depends on IEEE single-precision rounding — the resampled frame count in
`SoundAtlas::perform_resample` — is modelled bit-faithfully by `F32`, an exact
model of round-to-nearest-even binary32 arithmetic on (unbounded-exponent)
normal values; all magnitudes appearing in these computations are far from
both overflow and the subnormal range, where the model and the hardware agree.
-/

set_option maxRecDepth 8000

/-! ## Mixer (`unm-sfx/src/mixer.rs`)

A `ClipMap` is a pointer into the atlas plus a frame count; a voice reads
the `frames_count` mono samples starting at `data_ptr`.  We model the clip
directly as its list of samples, so `frames_count = clip.length`, and the
slice read `*src_ptr.add(cursor + j)` becomes `clip.getD (cursor + j) 0`
(in the source the index is always in bounds). -/

/-- `SoundState { clip, cursor }` from `mixer.rs`. -/
structure SoundState where
  clip : List ℚ
  cursor : ℕ

/-- Rust `f32::clamp(-1.0, 1.0)`: below the range gives `-1`, above gives `1`. -/
def clampQ (x : ℚ) : ℚ :=
  if x < -1 then -1 else if 1 < x then 1 else x

/-- `*out_ptr.add(idx) += v` on a buffer modelled as a list
(the source only ever writes in bounds). -/
def writeAdd (buf : List ℚ) (idx : ℕ) (v : ℚ) : List ℚ :=
  buf.set idx (buf.getD idx 0 + v)

/-- One output frame of the `match channels` in `Mixer::mix`: channel count 1
adds the mono sample once, channel count 2 adds it at slots `2j` and `2j+1`,
and the catch-all arm adds it at every slot `j*channels + c`, `c < channels`. -/
def frameWrite (channels : ℕ) (buf : List ℚ) (j : ℕ) (s : ℚ) : List ℚ :=
  match channels with
  | 1 => writeAdd buf j s
  | 2 => writeAdd (writeAdd buf (j * 2) s) (j * 2 + 1) s
  | _ => (List.range channels).foldl (fun b c => writeAdd b (j * channels + c) s) buf

/-- The per-voice inner loops of `Mixer::mix`: for `j < mixFrames` the mono
sample `clip[cursor + j]` is added into frame `j` of the output buffer. -/
def renderVoice (channels : ℕ) (clip : List ℚ) (cursor mixFrames : ℕ)
    (buf : List ℚ) : List ℚ :=
  (List.range mixFrames).foldl
    (fun b j => frameWrite channels b j (clip.getD (cursor + j) 0)) buf

/-- `Vec::swap_remove(i)`: overwrite slot `i` with the last element and drop
the last slot. -/
def swapRemove (l : List SoundState) (i : ℕ) : List SoundState :=
  match l.getLast? with
  | none => []
  | some last => (l.set i last).dropLast

/-- The `while i < sounds.len()` loop of `Mixer::mix`: take the voice at `i`,
compute `mix_frames = min out_frames (frames_count - cursor)`; if zero, swap-
remove the voice and retry at the same `i`; otherwise render, advance the
cursor, and either swap-remove (cursor reached the clip end) or step to
`i + 1`. -/
def mixGo (channels outFrames : ℕ) (sounds : List SoundState) (i : ℕ)
    (buf : List ℚ) : List SoundState × List ℚ :=
  if h : i < sounds.length then
    let sound := sounds[i]
    let mixFrames := min outFrames (sound.clip.length - sound.cursor)
    if mixFrames = 0 then
      mixGo channels outFrames (swapRemove sounds i) i buf
    else
      let buf' := renderVoice channels sound.clip sound.cursor mixFrames buf
      let sound' : SoundState := ⟨sound.clip, sound.cursor + mixFrames⟩
      let sounds' := sounds.set i sound'
      if sound'.clip.length ≤ sound'.cursor then
        mixGo channels outFrames (swapRemove sounds' i) i buf'
      else
        mixGo channels outFrames sounds' (i + 1) buf'
  else (sounds, buf)
termination_by sounds.length - i
decreasing_by
  all_goals
    have key : ∀ (l : List SoundState) (j : ℕ), (swapRemove l j).length = l.length - 1 := by
      intro l j
      unfold swapRemove
      cases hl : l.getLast? with
      | none => rw [List.getLast?_eq_none_iff] at hl; simp [hl]
      | some last => simp
    simp only [key, List.length_set]
    omega

/-- `Mixer::mix`: early return on an empty voice list; otherwise
`out_frames = out_data.len() / channels`, the voice loop, and the final
clamp of every sample of the output buffer. -/
def Mixer.mix (channels : ℕ) (sounds : List SoundState) (outData : List ℚ) :
    List SoundState × List ℚ :=
  if sounds.isEmpty then (sounds, outData)
  else
    let outFrames := outData.length / channels
    let r := mixGo channels outFrames sounds 0 outData
    (r.1, r.2.map clampQ)

/-- `Mixer::add_sound`: push a fresh voice with cursor 0. -/
def Mixer.addSound (sounds : List SoundState) (clip : List ℚ) : List SoundState :=
  sounds ++ [⟨clip, 0⟩]

/-- A sequence of `Mixer::mix` calls, each into a freshly zeroed buffer of
`n * channels` samples (`n` frames); returns the final voice list and the
concatenation of the produced output buffers. -/
def runCalls (channels : ℕ) (sounds : List SoundState) :
    List ℕ → List SoundState × List ℚ
  | [] => (sounds, [])
  | n :: ns =>
    let r := Mixer.mix channels sounds (List.replicate (n * channels) 0)
    let rest := runCalls channels r.1 ns
    (rest.1, r.2 ++ rest.2)

/-! ## Exact model of binary32 rounding

`F32` is a signed rational `num / den` in unnormalised form; `fl` maps it to
the nearest binary32 value (ties to even) with a 24-bit significand and an
unbounded exponent — exact for the normal, non-overflowing magnitudes that
occur in the atlas computations. -/

/-- Fuelled ⌊log₂⌋ on naturals (`log2go n n` gives ⌊log₂ n⌋ for `n ≥ 1`). -/
def log2go : ℕ → ℕ → ℕ
  | 0, _ => 0
  | f + 1, n => if 2 ≤ n then log2go f (n / 2) + 1 else 0

/-- ⌊log₂ n⌋ for `n ≥ 1` (0 at 0). -/
def log2floor (n : ℕ) : ℕ := log2go n n

/-- The exponent `e` with `2^e ≤ a/b < 2^(e+1)`, for `a, b ≥ 1`. -/
def qexpAux (a b : ℕ) : ℤ :=
  let e0 : ℤ := (log2floor a : ℤ) - (log2floor b : ℤ)
  let lt : Bool :=
    if 0 ≤ e0 then decide (a < b * 2 ^ e0.toNat) else decide (a * 2 ^ (-e0).toNat < b)
  if lt then e0 - 1 else e0

/-- Round `num / den` to the nearest integer, ties to even (`den ≥ 1`). -/
def roundHalfEven (num den : ℕ) : ℕ :=
  let q := num / den
  let r := num % den
  if 2 * r < den then q
  else if den < 2 * r then q + 1
  else if q % 2 = 0 then q else q + 1

/-- Round the positive rational `a / b` to the nearest binary32 value,
returned as a numerator/denominator pair. -/
def flPos (a b : ℕ) : ℕ × ℕ :=
  let e := qexpAux a b
  if 23 ≤ e then
    (roundHalfEven a (b * 2 ^ (e - 23).toNat) * 2 ^ (e - 23).toNat, 1)
  else
    (roundHalfEven (a * 2 ^ (23 - e).toNat) b, 2 ^ (23 - e).toNat)

/-- A signed unnormalised rational standing for an `f32` computation value. -/
structure F32 where
  num : ℤ
  den : ℕ

/-- Round an exact rational to the nearest binary32 value. -/
def fl (x : F32) : F32 :=
  if x.num = 0 ∨ x.den = 0 then ⟨0, 1⟩
  else
    let p := flPos x.num.natAbs x.den
    if x.num < 0 then ⟨-(p.1 : ℤ), p.2⟩ else ⟨(p.1 : ℤ), p.2⟩

/-- `n as f32`. -/
def F32.ofNat (n : ℕ) : F32 := fl ⟨(n : ℤ), 1⟩

/-- `f32` multiplication: exact product, then rounding. -/
def F32.mul (x y : F32) : F32 := fl ⟨x.num * y.num, x.den * y.den⟩

/-- `f32` division: exact quotient, then rounding. -/
def F32.div (x y : F32) : F32 :=
  if y.num < 0 then fl ⟨-(x.num * (y.den : ℤ)), x.den * y.num.natAbs⟩
  else fl ⟨x.num * (y.den : ℤ), x.den * y.num.natAbs⟩

/-- `f32` addition: exact sum, then rounding. -/
def F32.add (x y : F32) : F32 :=
  fl ⟨x.num * (y.den : ℤ) + y.num * (x.den : ℤ), x.den * y.den⟩

/-- `f32` subtraction: exact difference, then rounding. -/
def F32.sub (x y : F32) : F32 :=
  fl ⟨x.num * (y.den : ℤ) - y.num * (x.den : ℤ), x.den * y.den⟩

/-- The exact rational value of an `F32`. -/
def F32.toRat (x : F32) : ℚ := (x.num : ℚ) / (x.den : ℚ)

/-- Inject a rational sample (conceptually already an `f32` value). -/
def F32.ofRat (q : ℚ) : F32 := ⟨q.num, q.den⟩

/-- `x as usize` for the nonnegative values this code produces
(negative values saturate to 0, as in Rust). -/
def F32.floorNat (x : F32) : ℕ := (x.num.ediv (x.den : ℤ)).toNat

/-- `f32::ceil` (exact on binary32 values), as an integer. -/
def F32.ceilInt (x : F32) : ℤ := -((-x.num).ediv (x.den : ℤ))

/-! ## Sample atlas (`unm-sfx/src/atlas.rs`) -/

/-- `RawSource`: decoded mono samples, native rate, frame count. -/
structure RawSource where
  data : List ℚ
  sample_rate : ℕ
  frames_count : ℕ

/-- `SoundAtlas::get_raw_frame`: sample at `frameIdx`, 0 beyond the clip. -/
def SoundAtlas.getRawFrame (source : RawSource) (frameIdx : ℕ) : ℚ :=
  if frameIdx < source.frames_count then source.data.getD frameIdx 0 else 0

/-- `SoundAtlas::lerp_sample_from_raw`: fractional source index
`idx = time * rate`, then linear interpolation between the samples at
`⌊idx⌋` and `⌊idx⌋ + 1`, every operation in `f32`. -/
def SoundAtlas.lerpSampleFromRaw (source : RawSource) (time : F32) : ℚ :=
  let idxf32 := F32.mul time (F32.ofNat source.sample_rate)
  let idx := idxf32.floorNat
  let fract := F32.sub idxf32 (F32.ofNat idx)
  let curr := SoundAtlas.getRawFrame source idx
  let next := SoundAtlas.getRawFrame source (idx + 1)
  (F32.add (F32.ofRat curr)
    (F32.mul fract (F32.sub (F32.ofRat next) (F32.ofRat curr)))).toRat

/-- The output length of `SoundAtlas::perform_resample`:
`((frames_count as f32 / sample_rate as f32) * target_rate as f32).ceil() as usize`,
with both the division and the multiplication rounded to binary32. -/
def targetFramesCount (framesCount sampleRate targetRate : ℕ) : ℕ :=
  ((F32.mul (F32.div (F32.ofNat framesCount) (F32.ofNat sampleRate))
      (F32.ofNat targetRate)).ceilInt).toNat

/-- The exact value of `⌈(Ns / Rs) * Rt⌉` in integer arithmetic (`Rs ≥ 1`). -/
def exactCeilFrames (framesCount sampleRate targetRate : ℕ) : ℕ :=
  (framesCount * targetRate + sampleRate - 1) / sampleRate

/-- `SoundAtlas::perform_resample`: one lerped sample per destination frame
`i < targetFramesCount`, at source time `i as f32 / target_rate as f32`. -/
def SoundAtlas.performResample (source : RawSource) (targetRate : ℕ) : List ℚ :=
  (List.range (targetFramesCount source.frames_count source.sample_rate targetRate)).map
    (fun i => SoundAtlas.lerpSampleFromRaw source
      (F32.div (F32.ofNat i) (F32.ofNat targetRate)))

/-- Step 1 of `build_from_sources`: resample iff the native rate differs
from the device rate. -/
def processSource (source : RawSource) (deviceSampleRate : ℕ) : List ℚ :=
  if source.sample_rate ≠ deviceSampleRate then
    SoundAtlas.performResample source deviceSampleRate
  else source.data

/-- `while central_data.len() % 16 != 0 { central_data.push(0.0) }`. -/
def padTo16 (l : List ℚ) : List ℚ :=
  if l.length % 16 = 0 then l else padTo16 (l ++ [(0 : ℚ)])
termination_by ((16 - l.length % 16) % 16)
decreasing_by simp [List.length_append]; omega

/-- One iteration of the `for (handle, source) in sources.iter()` loop of
`build_from_sources`: pad to a multiple of 16 samples, record
`(handle, offset, frames)`, append the processed samples. -/
def buildStep (deviceSampleRate : ℕ) (acc : List ℚ × List (ℕ × ℕ × ℕ))
    (entry : ℕ × RawSource) : List ℚ × List (ℕ × ℕ × ℕ) :=
  let processed := processSource entry.2 deviceSampleRate
  let padded := padTo16 acc.1
  (padded ++ processed, acc.2 ++ [(entry.1, padded.length, processed.length)])

/-- `SoundAtlas::build_from_sources`: the atlas buffer plus the list of
`(handle, offset, frames_count)` clip records. -/
def SoundAtlas.buildFromSources (sources : List (ℕ × RawSource))
    (deviceSampleRate : ℕ) : List ℚ × List (ℕ × ℕ × ℕ) :=
  sources.foldl (buildStep deviceSampleRate) ([], [])

/-- Turn the offset-based clip records into the sample slices the `ClipMap`
pointers denote. -/
def clipsOf (atlas : List ℚ × List (ℕ × ℕ × ℕ)) : List (ℕ × List ℚ) :=
  atlas.2.map (fun c => (c.1, (atlas.1.drop c.2.1).take c.2.2))

/-! ## Handle allocation (`unm-tools/src/id_map.rs`)

The `u64::MAX` exhaustion panic in `IdMap::insert` is unreachable for any
op sequence a process can perform; with ids as `ℕ` the increment is modelled
directly. -/

/-- `IdMap`: key→value map plus the monotone `next_id` counter. -/
structure IdMap (V : Type) where
  data : List (ℕ × V)
  nextId : ℕ

/-- `IdMap::new()`: empty, `next_id = 1` (0 reserved as invalid). -/
def IdMap.new (V : Type) : IdMap V := ⟨[], 1⟩

/-- `IdMap::insert`: hand out `next_id`, increment it, store the value. -/
def IdMap.insert (m : IdMap V) (v : V) : IdMap V × ℕ :=
  (⟨m.data ++ [(m.nextId, v)], m.nextId + 1⟩, m.nextId)

/-- `IdMap::remove`: delete the mapping; `next_id` is untouched, so the id is
never handed out again by this map. -/
def IdMap.remove (m : IdMap V) (handle : ℕ) : IdMap V :=
  ⟨m.data.filter (fun e => e.1 ≠ handle), m.nextId⟩

/-- An insert or remove operation on an `IdMap`. -/
inductive IdOp (V : Type) where
  | ins : V → IdOp V
  | rem : ℕ → IdOp V

/-- Run a sequence of operations, collecting every handle issued by an
insert. -/
def runOps : IdMap V → List (IdOp V) → IdMap V × List ℕ
  | m, [] => (m, [])
  | m, IdOp.ins v :: ops =>
    let r := m.insert v
    let rest := runOps r.1 ops
    (rest.1, r.2 :: rest.2)
  | m, IdOp.rem h :: ops => runOps (m.remove h) ops

/-- Insert each element of a list in order. -/
def insertAll (m : IdMap V) : List V → IdMap V
  | [] => m
  | v :: vs => insertAll (m.insert v).1 vs

/-! ## Stream supervisor (`unm-sfx/src/backend/cpal.rs`)

The decoder and the platform device are external black boxes: inputs are
modelled as already-decoded `(samples, native_rate)` pairs, and the device as
a `DeviceConfig` saying whether opening succeeds and, if so, which sample
rate and channel count it reports.  The `HeapRb` trigger ring of capacity 128
is the `queue` field: `play` pushes into it through the producer the `Player`
always holds.  The `consumer` flag models `self.consumer : Option<HeapCons>`:
`build_stream` moves it into the callback closure (`self.consumer.take()`)
and fails when it is already gone; only the device-lost branch of
`maintain_stream` installs a fresh ring (restoring the consumer and dropping
pending triggers).  The `deviceLost` flag is the `AtomicBool` the stream's
error callback sets. -/

/-- The device parameters `build_stream` observes: whether
`default_output_device`/`default_output_config`/`build_output_stream`
succeed, and the sample rate and channel count the device reports. -/
structure DeviceConfig where
  available : Bool
  sampleRate : ℕ
  channels : ℕ

/-- The `Player` state: the trigger ring content, whether a stream is open,
the globals the callback reads (`GLOBAL_MIXER` / `GLOBAL_ATLAS`), the cached
decoded sources, whether the ring's consumer end is still held by the player
(`self.consumer.is_some()`), and the device-lost flag. -/
structure PlayerModel where
  queue : List ℕ
  streamOpen : Bool
  mixer : Option (List SoundState)
  atlas : Option (List (ℕ × List ℚ))
  cachedSources : Option (List (ℕ × RawSource))
  consumer : Bool
  deviceLost : Bool

/-- `Player::new()`: fresh ring (producer and consumer both held), no stream,
no globals, no sources, loss flag clear. -/
def Player.new : PlayerModel := ⟨[], false, none, none, none, true, false⟩

/-- `Player::play`: `let _ = self.producer.try_push(handle)` — always pushes
into the current ring (dropped only when the ring holds 128 pending
triggers), with no check whether a stream is open. -/
def Player.play (st : PlayerModel) (handle : ℕ) : PlayerModel :=
  { st with queue := if st.queue.length < 128 then st.queue ++ [handle] else st.queue }

/-- `atlas.1.get(&handle)` on the handle→clip map. -/
def atlasLookup (atlas : List (ℕ × List ℚ)) (handle : ℕ) : Option (List ℚ) :=
  (atlas.find? (fun e => e.1 == handle)).map (fun e => e.2)

/-- The audio callback closure built by `Player::build_stream`:
`data.fill(0.0)`, early return if either global is unset, otherwise drain
every pending trigger into the mixer (`add_sound` per resolvable handle) and
run `Mixer::mix`.  Returns the new mixer state, the written buffer, and the
remaining queue. -/
def audioCallback (mixerSt : Option (List SoundState))
    (atlasSt : Option (List (ℕ × List ℚ))) (queue : List ℕ) (channels : ℕ)
    (data : List ℚ) : Option (List SoundState) × List ℚ × List ℕ :=
  let zeroed := List.replicate data.length (0 : ℚ)
  match mixerSt, atlasSt with
  | some mixer, some atlas =>
    let mixer' := queue.foldl
      (fun m h => match atlasLookup atlas h with
        | some clip => Mixer.addSound m clip
        | none => m) mixer
    let r := Mixer.mix channels mixer' zeroed
    (some r.1, r.2, [])
  | _, _ => (mixerSt, zeroed, queue)

/-- `Player::build_stream`: `Ok` and no state change without cached sources;
then the device must open (an error before `self.consumer.take()` leaves the
consumer in place); then `self.consumer.take()` must yield a consumer — the
error path `Consumer handle lost` fires on a rebuild without an intervening
device-loss `maintain_stream`, again installing nothing.  On success the
consumer moves into the callback closure, a fresh mixer and an atlas built at
the device rate are installed, and the stream opens.  The trigger ring (and
anything already in it) carries over: the callback receives the consumer side
of the same ring the producer feeds.  The `Bool` is the `anyhow::Result`. -/
def Player.buildStream (st : PlayerModel) (dev : DeviceConfig) :
    PlayerModel × Bool :=
  match st.cachedSources with
  | none => (st, true)
  | some srcs =>
    if dev.available = false then (st, false)
    else if st.consumer = false then (st, false)
    else
      ({ st with
          streamOpen := true
          consumer := false
          mixer := some []
          atlas := some (clipsOf (SoundAtlas.buildFromSources srcs dev.sampleRate)) },
        true)

/-- `Player::init_load_sound` (decode step abstracted away): build a fresh
`IdMap` over the decoded sources, cache it (the cache stays in place even on
failure), attempt `build_stream`, and return the issued handles
(`sounds.keys()`) on success, `none` when `build_stream` fails. -/
def Player.initLoadSound (st : PlayerModel) (datas : List (List ℚ × ℕ))
    (dev : DeviceConfig) : PlayerModel × Option (List ℕ) :=
  let sounds := insertAll (IdMap.new RawSource)
    (datas.map (fun d => RawSource.mk d.1 d.2 d.1.length))
  let r := Player.buildStream { st with cachedSources := some sounds.data } dev
  (r.1, if r.2 then some (sounds.data.map (fun e => e.1)) else none)

/-- The stream's error callback: `device_lost_trigger.store(true)`. -/
def Player.onDeviceLost (st : PlayerModel) : PlayerModel :=
  { st with deviceLost := true }

/-- `Player::maintain_stream`: if the loss flag is set, clear the globals,
drop the stream, install a fresh trigger ring (restoring the consumer and
discarding pending triggers) and clear the flag; then, with cached sources
and no open stream, retry `build_stream` (its result is discarded). -/
def Player.maintainStream (st : PlayerModel) (dev : DeviceConfig) : PlayerModel :=
  let st1 := if st.deviceLost then
      { st with
          mixer := none
          atlas := none
          streamOpen := false
          queue := []
          consumer := true
          deviceLost := false }
    else st
  if st1.cachedSources.isSome ∧ st1.streamOpen = false then
    (Player.buildStream st1 dev).1
  else st1

/-- One invocation of the audio callback against the player's installed
globals and pending triggers. -/
def Player.runCallback (st : PlayerModel) (channels : ℕ) (data : List ℚ) :
    PlayerModel × List ℚ :=
  let r := audioCallback st.mixer st.atlas st.queue channels data
  ({ st with mixer := r.1, queue := r.2.2 }, r.2.1)

/-! ## Buffer lemmas -/

theorem swapRemove_length (l : List SoundState) (i : ℕ) :
    (swapRemove l i).length = l.length - 1 := by
  unfold swapRemove
  cases hl : l.getLast? with
  | none => rw [List.getLast?_eq_none_iff] at hl; simp [hl]
  | some last => simp

theorem clampQ_bounds (x : ℚ) : -1 ≤ clampQ x ∧ clampQ x ≤ 1 := by
  unfold clampQ
  split_ifs with h1 h2
  · norm_num
  · norm_num
  · constructor <;> linarith

theorem clampQ_zero : clampQ 0 = 0 := by norm_num [clampQ]

theorem writeAdd_length (buf : List ℚ) (i : ℕ) (v : ℚ) :
    (writeAdd buf i v).length = buf.length := by
  simp [writeAdd]

theorem writeAdd_getD (buf : List ℚ) (i : ℕ) (v : ℚ) (hi : i < buf.length) (k : ℕ) :
    (writeAdd buf i v).getD k 0 = buf.getD k 0 + (if k = i then v else 0) := by
  unfold writeAdd
  rcases eq_or_ne k i with rfl | hne
  · simp [List.getD_eq_getElem?_getD, List.getElem?_set_self', List.getElem?_eq_getElem hi]
  · simp [List.getD_eq_getElem?_getD, List.getElem?_set_ne (Ne.symm hne), hne]

theorem foldlWrite_length (buf : List ℚ) (base : ℕ) (s : ℚ) (ch : ℕ) :
    ((List.range ch).foldl (fun b c => writeAdd b (base + c) s) buf).length = buf.length := by
  induction ch with
  | zero => simp
  | succ n ih => rw [List.range_succ, List.foldl_append]; simp [writeAdd_length, ih]

theorem foldlWrite_getD (s : ℚ) (ch : ℕ) (buf : List ℚ) (base : ℕ)
    (hb : base + ch ≤ buf.length) (k : ℕ) :
    ((List.range ch).foldl (fun b c => writeAdd b (base + c) s) buf).getD k 0
      = buf.getD k 0 + (if base ≤ k ∧ k < base + ch then s else 0) := by
  induction ch with
  | zero =>
    have hk : ¬(base ≤ k ∧ k < base + 0) := by omega
    simp [hk]
  | succ n ih =>
    rw [List.range_succ, List.foldl_append]
    simp only [List.foldl_cons, List.foldl_nil]
    rw [writeAdd_getD _ _ _ (by rw [foldlWrite_length]; omega) k,
      ih (by omega)]
    split_ifs <;> first | (exfalso; omega) | ring1

theorem frameWrite_length (ch : ℕ) (buf : List ℚ) (j : ℕ) (s : ℚ) :
    (frameWrite ch buf j s).length = buf.length := by
  match ch with
  | 0 => simp [frameWrite]
  | 1 => simp [frameWrite, writeAdd_length]
  | 2 => simp [frameWrite, writeAdd_length]
  | (n + 3) => simpa [frameWrite] using foldlWrite_length buf (j * (n + 3)) s (n + 3)

theorem frameWrite_getD (ch : ℕ) (buf : List ℚ) (j : ℕ) (s : ℚ)
    (hb : (j + 1) * ch ≤ buf.length) (k : ℕ) :
    (frameWrite ch buf j s).getD k 0
      = buf.getD k 0 + (if j * ch ≤ k ∧ k < (j + 1) * ch then s else 0) := by
  match ch with
  | 0 =>
    have hk : ¬(j * 0 ≤ k ∧ k < (j + 1) * 0) := by omega
    simp [frameWrite, hk]
  | 1 =>
    show (writeAdd buf j s).getD k 0 = _
    rw [writeAdd_getD _ _ _ (by omega) k]
    split_ifs <;> first | (exfalso; omega) | ring1
  | 2 =>
    show (writeAdd (writeAdd buf (j * 2) s) (j * 2 + 1) s).getD k 0 = _
    rw [writeAdd_getD _ _ _ (by rw [writeAdd_length]; omega) k,
      writeAdd_getD _ _ _ (by omega) k]
    split_ifs <;> first | (exfalso; omega) | ring1
  | (n + 3) =>
    show ((List.range (n + 3)).foldl (fun b c => writeAdd b (j * (n + 3) + c) s) buf).getD k 0 = _
    rw [foldlWrite_getD s (n + 3) buf (j * (n + 3)) (by simp [Nat.succ_mul] at hb ⊢; omega) k]
    have h1 : (j + 1) * (n + 3) = j * (n + 3) + (n + 3) := by ring
    rw [h1]

theorem renderVoice_succ (ch : ℕ) (clip : List ℚ) (cursor n : ℕ) (buf : List ℚ) :
    renderVoice ch clip cursor (n + 1) buf
      = frameWrite ch (renderVoice ch clip cursor n buf) n (clip.getD (cursor + n) 0) := by
  unfold renderVoice
  rw [List.range_succ, List.foldl_append]
  simp

theorem renderVoice_length (ch : ℕ) (clip : List ℚ) (cursor m : ℕ) (buf : List ℚ) :
    (renderVoice ch clip cursor m buf).length = buf.length := by
  induction m with
  | zero => simp [renderVoice]
  | succ n ih => rw [renderVoice_succ, frameWrite_length, ih]

theorem renderVoice_getD (ch : ℕ) (clip : List ℚ) (cursor : ℕ) (m : ℕ) (buf : List ℚ)
    (hb : m * ch ≤ buf.length) (k : ℕ) :
    (renderVoice ch clip cursor m buf).getD k 0
      = buf.getD k 0 + (if k < m * ch then clip.getD (cursor + k / ch) 0 else 0) := by
  induction m with
  | zero => simp [renderVoice]
  | succ n ih =>
    rw [renderVoice_succ,
      frameWrite_getD ch _ n _ (by rw [renderVoice_length]; omega) k,
      ih (by simp [Nat.succ_mul] at hb ⊢; omega)]
    rcases Nat.eq_zero_or_pos ch with rfl | hch
    · have h0 : ¬(k < n * 0) := by omega
      have h1 : ¬(k < (n + 1) * 0) := by omega
      have h2 : ¬(n * 0 ≤ k ∧ k < (n + 1) * 0) := by omega
      simp [h0, h1, h2]
    · rcases Nat.lt_or_ge k (n * ch) with h1 | h1
      · have h2 : k < (n + 1) * ch := by simp [Nat.succ_mul]; omega
        have h3 : ¬(n * ch ≤ k ∧ k < (n + 1) * ch) := by omega
        simp [h1, h2, h3]
      · rcases Nat.lt_or_ge k ((n + 1) * ch) with h2 | h2
        · have h3 : k / ch = n := Nat.div_eq_of_lt_le h1 h2
          have h4 : ¬(k < n * ch) := by omega
          simp [h2, h4, h1, h3]
        · have h3 : ¬(k < n * ch) := by simp [Nat.succ_mul] at h2; omega
          have h4 : ¬(k < (n + 1) * ch) := by omega
          have h5 : ¬(n * ch ≤ k ∧ k < (n + 1) * ch) := by omega
          simp [h3, h4, h5]

theorem flatMapRep_length (xs : List ℚ) (ch : ℕ) (f : ℚ → ℚ) :
    (xs.flatMap (fun s => List.replicate ch (f s))).length = xs.length * ch := by
  induction xs with
  | nil => simp
  | cons x xs ih => simp [ih, Nat.succ_mul]; omega

theorem flatMapRep_getD (xs : List ℚ) (ch : ℕ) (f : ℚ → ℚ) (k : ℕ)
    (hk : k < xs.length * ch) :
    (xs.flatMap (fun s => List.replicate ch (f s))).getD k 0 = f (xs.getD (k / ch) 0) := by
  induction xs generalizing k with
  | nil => simp at hk
  | cons x xs ih =>
    have hch : 0 < ch := by by_contra h; simp at h; subst h; simp at hk
    rcases Nat.lt_or_ge k ch with h1 | h1
    · have hdiv : k / ch = 0 := Nat.div_eq_of_lt h1
      simp [List.getD_eq_getElem?_getD, List.getElem?_append_left, h1,
        List.getElem?_replicate, hdiv]
    · have hdiv : k / ch = (k - ch) / ch + 1 := by
        rw [Nat.div_eq_sub_div hch h1]
      have hk' : k - ch < xs.length * ch := by
        simp [Nat.succ_mul] at hk; omega
      have := ih (k - ch) hk'
      simp only [List.flatMap_cons]
      rw [List.getD_eq_getElem?_getD, List.getElem?_append_right (by simp; omega),
        ← List.getD_eq_getElem?_getD, List.length_replicate, this, hdiv]
      simp

theorem dropTake_getD (data : List ℚ) (c m i : ℕ) (him : i < m) :
    ((data.drop c).take m).getD i 0 = data.getD (c + i) 0 := by
  rw [List.getD_eq_getElem?_getD, List.getD_eq_getElem?_getD,
    List.getElem?_take, if_pos him, List.getElem?_drop]

/-! ## Atlas padding lemmas -/

theorem padTo16_eq (l : List ℚ) :
    padTo16 l = l ++ List.replicate ((16 - l.length % 16) % 16) (0 : ℚ) := by
  induction l using padTo16.induct with
  | case1 l h => rw [padTo16, if_pos h, h]; simp
  | case2 l h ih =>
    rw [padTo16, if_neg h, ih]
    rw [List.append_assoc]
    congr 1
    have harith : (16 - l.length % 16) % 16 = ((16 - (l ++ [(0:ℚ)]).length % 16) % 16) + 1 := by
      simp [List.length_append]
      omega
    rw [harith, List.replicate_succ]
    simp

theorem padTo16_mod (l : List ℚ) : (padTo16 l).length % 16 = 0 := by
  rw [padTo16_eq]
  simp [List.length_append]
  omega

theorem padTo16_len_ge (l : List ℚ) : l.length ≤ (padTo16 l).length := by
  rw [padTo16_eq]
  simp

/-! ## Closed forms for `Mixer.mix` -/

theorem mix_empty (ch : ℕ) (out : List ℚ) : Mixer.mix ch [] out = ([], out) := rfl

theorem mixGo_single (ch outF : ℕ) (data : List ℚ) (c : ℕ) (buf : List ℚ)
    (hm : min outF (data.length - c) ≠ 0) :
    mixGo ch outF [⟨data, c⟩] 0 buf
      = ((if data.length ≤ c + min outF (data.length - c) then []
          else [⟨data, c + min outF (data.length - c)⟩]),
         renderVoice ch data c (min outF (data.length - c)) buf) := by
  rw [mixGo]
  have h01 : 0 < ([(⟨data, c⟩ : SoundState)] : List SoundState).length := by simp
  rw [dif_pos h01]
  simp only [List.getElem_cons_zero]
  rw [if_neg hm]
  by_cases hend : data.length ≤ c + min outF (data.length - c)
  · rw [if_pos hend]
    have hsw : swapRemove (([(⟨data, c⟩ : SoundState)] : List SoundState).set 0
        ⟨data, c + min outF (data.length - c)⟩) 0 = [] := by
      simp [swapRemove]
    rw [hsw, mixGo]
    simp [hend]
  · rw [if_neg hend, mixGo]
    simp [hend]

theorem renderZero_map_clamp (ch : ℕ) (data : List ℚ) (c n : ℕ)
    (hc : c < data.length) :
    (renderVoice ch data c (min n (data.length - c))
        (List.replicate (n * ch) (0 : ℚ))).map clampQ
      = ((data.drop c).take (min n (data.length - c))).flatMap
            (fun s => List.replicate ch (clampQ s))
          ++ List.replicate ((n - (data.length - c)) * ch) (0 : ℚ) := by
  have hmn : min n (data.length - c) + (n - (data.length - c)) = n := by omega
  have htlen : ((data.drop c).take (min n (data.length - c))).length
      = min n (data.length - c) := by
    simp [List.length_take, List.length_drop]
  apply List.ext_getElem
  · simp only [List.length_map, renderVoice_length, List.length_replicate,
      List.length_append, flatMapRep_length, htlen]
    calc n * ch = (min n (data.length - c) + (n - (data.length - c))) * ch := by rw [hmn]
      _ = _ := by rw [Nat.add_mul]
  · intro k h1 h2
    have hk : k < n * ch := by
      simpa [renderVoice_length] using h1
    rw [← List.getD_eq_getElem _ 0 h1, ← List.getD_eq_getElem _ 0 h2]
    have hmap : ∀ (l : List ℚ), k < l.length → (l.map clampQ).getD k 0
        = clampQ (l.getD k 0) := by
      intro l hkl
      rw [List.getD_eq_getElem _ 0 (by simpa using hkl), List.getElem_map,
        List.getD_eq_getElem _ 0 hkl]
    have hL : (List.map clampQ (renderVoice ch data c (min n (data.length - c))
        (List.replicate (n * ch) (0 : ℚ)))).getD k 0
        = (if k < min n (data.length - c) * ch
            then clampQ (data.getD (c + k / ch) 0) else 0) := by
      rw [hmap _ (by simp [renderVoice_length]; omega),
        renderVoice_getD ch data c _ _ (by simp; exact Nat.mul_le_mul_right ch (by omega)) k]
      have hrep : (List.replicate (n * ch) (0 : ℚ)).getD k 0 = 0 := by
        rw [List.getD_eq_getElem _ 0 (by simpa using hk)]
        simp
      rw [hrep, zero_add]
      by_cases hwin : k < min n (data.length - c) * ch
      · rw [if_pos hwin, if_pos hwin]
      · rw [if_neg hwin, if_neg hwin, clampQ_zero]
    have hR : ((((data.drop c).take (min n (data.length - c))).flatMap
          (fun s => List.replicate ch (clampQ s)))
          ++ List.replicate ((n - (data.length - c)) * ch) (0 : ℚ)).getD k 0
        = (if k < min n (data.length - c) * ch
            then clampQ (data.getD (c + k / ch) 0) else 0) := by
      by_cases hwin : k < min n (data.length - c) * ch
      · have hdiv : k / ch < min n (data.length - c) :=
          Nat.div_lt_of_lt_mul (by rw [Nat.mul_comm]; exact hwin)
        conv_lhs =>
          rw [List.getD_eq_getElem?_getD, List.getElem?_append_left
            (by rw [flatMapRep_length, htlen]; exact hwin),
            ← List.getD_eq_getElem?_getD,
            flatMapRep_getD _ ch (fun s => clampQ s) k (by rw [htlen]; exact hwin),
            dropTake_getD data c _ _ hdiv]
        rw [if_pos hwin]
      · have hkr : k - min n (data.length - c) * ch < (n - (data.length - c)) * ch := by
          have := Nat.add_mul (min n (data.length - c)) (n - (data.length - c)) ch
          rw [hmn] at this
          omega
        conv_lhs =>
          rw [List.getD_eq_getElem?_getD, List.getElem?_append_right
            (by rw [flatMapRep_length, htlen]; omega)]
        rw [flatMapRep_length, htlen]
        rw [if_neg hwin]
        simp [List.getElem?_replicate, hkr]
    rw [hL, hR]

theorem mix_single (ch : ℕ) (hch : 1 ≤ ch) (data : List ℚ) (c n : ℕ)
    (hc : c < data.length) (hn : 1 ≤ n) :
    Mixer.mix ch [⟨data, c⟩] (List.replicate (n * ch) (0 : ℚ))
      = ((if data.length ≤ c + n then [] else [⟨data, c + n⟩]),
         ((data.drop c).take (min n (data.length - c))).flatMap
             (fun s => List.replicate ch (clampQ s))
           ++ List.replicate ((n - (data.length - c)) * ch) (0 : ℚ)) := by
  have hm : min n (data.length - c) ≠ 0 := by omega
  have hout : n * ch / ch = n := Nat.mul_div_cancel n (by omega)
  simp only [Mixer.mix, List.isEmpty_cons, Bool.false_eq_true, if_false,
    List.length_replicate, hout]
  rw [mixGo_single ch n data c _ hm]
  dsimp only
  refine Prod.ext ?_ ?_
  · dsimp only
    by_cases hend : data.length ≤ c + n
    · have h1 : data.length ≤ c + min n (data.length - c) := by omega
      rw [if_pos hend, if_pos h1]
    · have h1 : ¬(data.length ≤ c + min n (data.length - c)) := by omega
      have h3 : min n (data.length - c) = n := by omega
      rw [if_neg hend, if_neg h1, h3]
  · dsimp only
    exact renderZero_map_clamp ch data c n hc

theorem runCalls_nil_voices (ch : ℕ) (ns : List ℕ) :
    runCalls ch [] ns = ([], List.replicate (ns.sum * ch) (0 : ℚ)) := by
  induction ns with
  | nil => simp [runCalls]
  | cons n ns ih =>
    simp only [runCalls, mix_empty, ih, List.sum_cons, Nat.add_mul]
    rw [← List.replicate_add]

theorem runCalls_single (ch : ℕ) (hch : 1 ≤ ch) (data : List ℚ) :
    ∀ (ns : List ℕ) (c : ℕ), (∀ x ∈ ns, 1 ≤ x) → c < data.length →
    runCalls ch [⟨data, c⟩] ns
      = ((if c + ns.sum < data.length then [⟨data, c + ns.sum⟩] else []),
         ((data.drop c).take (min ns.sum (data.length - c))).flatMap
             (fun s => List.replicate ch (clampQ s))
           ++ List.replicate ((ns.sum - (data.length - c)) * ch) (0 : ℚ)) := by
  intro ns
  induction ns with
  | nil =>
    intro c _ hc
    simp [runCalls, hc]
  | cons n ns ih =>
    intro c hns hc
    have hn : 1 ≤ n := hns n (by simp)
    have hns' : ∀ x ∈ ns, 1 ≤ x := fun x hx => hns x (by simp [hx])
    simp only [runCalls]
    rw [mix_single ch hch data c n hc hn]
    dsimp only
    by_cases hend : data.length ≤ c + n
    · rw [if_pos hend, runCalls_nil_voices]
      have h2 : ¬(c + (n :: ns).sum < data.length) := by
        simp only [List.sum_cons]
        omega
      rw [if_neg h2]
      dsimp only
      refine Prod.ext rfl ?_
      dsimp only
      have hd1 : min n (data.length - c) = min ((n :: ns).sum) (data.length - c) := by
        simp only [List.sum_cons]
        omega
      have hd2 : (n - (data.length - c)) * ch + ns.sum * ch
          = ((n :: ns).sum - (data.length - c)) * ch := by
        rw [← Nat.add_mul]
        simp only [List.sum_cons]
        congr 1
        omega
      rw [List.append_assoc, ← List.replicate_add, hd2, ← hd1]
    · rw [if_neg hend, ih (c + n) hns' (by omega)]
      have hsum : c + n + ns.sum = c + (n :: ns).sum := by
        simp only [List.sum_cons]
        omega
      refine Prod.ext ?_ ?_
      · dsimp only
        rw [hsum]
      · dsimp only
        have hminn : min n (data.length - c) = n := by omega
        have hz : n - (data.length - c) = 0 := by omega
        have hsplit : min ((n :: ns).sum) (data.length - c)
            = n + min ns.sum (data.length - (c + n)) := by
          simp only [List.sum_cons]
          omega
        have hdrop : (data.drop c).drop n = data.drop (c + n) := by
          rw [List.drop_drop]
        have hrep : (ns.sum - (data.length - (c + n))) * ch
            = ((n :: ns).sum - (data.length - c)) * ch := by
          congr 1
          simp only [List.sum_cons]
          omega
        rw [hminn, hz, Nat.zero_mul, List.replicate_zero, List.append_nil,
          hsplit, List.take_add, List.flatMap_append, hdrop, hrep,
          List.append_assoc]

/-! ## Mixer output range -/

theorem mix_output_bounds (ch : ℕ) (sounds : List SoundState) (out : List ℚ)
    (hs : sounds ≠ []) : ∀ x ∈ (Mixer.mix ch sounds out).2, -1 ≤ x ∧ x ≤ 1 := by
  unfold Mixer.mix
  rw [if_neg (by simpa [List.isEmpty_iff] using hs)]
  intro x hx
  rw [List.mem_map] at hx
  obtain ⟨y, _, rfl⟩ := hx
  exact clampQ_bounds y

/-! ## Handle allocation lemmas -/

theorem runOps_issued (V : Type) :
    ∀ (ops : List (IdOp V)) (m : IdMap V),
    (∀ h ∈ (runOps m ops).2, m.nextId ≤ h) ∧
      ((runOps m ops).2).Pairwise (· < ·) := by
  intro ops
  induction ops with
  | nil => intro m; simp [runOps]
  | cons op ops ih =>
    intro m
    cases op with
    | ins v =>
      obtain ⟨ihle, ihpw⟩ := ih (m.insert v).1
      have hnext : (m.insert v).1.nextId = m.nextId + 1 := rfl
      have hsnd : (m.insert v).2 = m.nextId := rfl
      rw [hnext] at ihle
      simp only [runOps, hsnd]
      constructor
      · intro h hh
        rcases List.mem_cons.mp hh with rfl | hh
        · exact le_refl _
        · have := ihle h hh
          omega
      · rw [List.pairwise_cons]
        exact ⟨fun h hh => by have := ihle h hh; omega, ihpw⟩
    | rem h =>
      have hnext : (m.remove h).nextId = m.nextId := rfl
      obtain ⟨ihle, ihpw⟩ := ih (m.remove h)
      rw [hnext] at ihle
      exact ⟨ihle, ihpw⟩

/-! ## Atlas construction invariants -/

theorem buildFold_inv (rate : ℕ) :
    ∀ (sources : List (ℕ × RawSource)) (acc : List ℚ × List (ℕ × ℕ × ℕ)),
    (∀ e ∈ acc.2, e.2.1 % 16 = 0) →
    (∀ e ∈ acc.2, e.2.1 + e.2.2 ≤ acc.1.length) →
    acc.2.Pairwise (fun a b => a.2.1 + a.2.2 ≤ b.2.1) →
    (∀ e ∈ (sources.foldl (buildStep rate) acc).2, e.2.1 % 16 = 0) ∧
    (∀ e ∈ (sources.foldl (buildStep rate) acc).2,
        e.2.1 + e.2.2 ≤ (sources.foldl (buildStep rate) acc).1.length) ∧
    ((sources.foldl (buildStep rate) acc).2).Pairwise
      (fun a b => a.2.1 + a.2.2 ≤ b.2.1) := by
  intro sources
  induction sources with
  | nil =>
    intro acc h1 h2 h3
    exact ⟨h1, h2, h3⟩
  | cons s ss ih =>
    intro acc h1 h2 h3
    rw [List.foldl_cons]
    apply ih
    · intro e he
      simp only [buildStep, List.mem_append, List.mem_singleton] at he
      rcases he with he | rfl
      · exact h1 e he
      · exact padTo16_mod acc.1
    · intro e he
      simp only [buildStep, List.mem_append, List.mem_singleton] at he
      simp only [buildStep, List.length_append]
      rcases he with he | rfl
      · have := h2 e he
        have := padTo16_len_ge acc.1
        omega
      · simp
    · simp only [buildStep]
      rw [List.pairwise_append]
      refine ⟨h3, by simp, ?_⟩
      intro a ha b hb
      simp only [List.mem_singleton] at hb
      subst hb
      have := h2 a ha
      have := padTo16_len_ge acc.1
      simp only
      omega

/-! ## Resample output length -/

theorem performResample_length (source : RawSource) (targetRate : ℕ) :
    (SoundAtlas.performResample source targetRate).length
      = targetFramesCount source.frames_count source.sample_rate targetRate := by
  simp [SoundAtlas.performResample]

/-! ## Degenerate single-voice call -/

theorem mix_degenerate (ch : ℕ) (data : List ℚ) (c : ℕ) (buf : List ℚ)
    (h : min (buf.length / ch) (data.length - c) = 0) :
    Mixer.mix ch [⟨data, c⟩] buf = ([], buf.map clampQ) := by
  unfold Mixer.mix
  rw [if_neg (by simp)]
  dsimp only
  rw [mixGo,
    dif_pos (show 0 < [(⟨data, c⟩ : SoundState)].length by simp)]
  simp only [List.getElem_cons_zero]
  rw [if_pos h]
  have hsw : swapRemove [⟨data, c⟩] 0 = [] := by simp [swapRemove]
  rw [hsw, mixGo, dif_neg (by simp)]

/-! ## Claim theorems -/

/-- C1 (counterexample): with 3 output channels, a voice with mono sample 1/2
mixed into a zeroed 3-slot buffer writes 1/2 into the third channel slot as
well, contradicting the claim that channels beyond the first two receive no
contribution. -/
theorem C1_counterexample :
    (Mixer.mix 3 [⟨[(1 : ℚ)/2], 0⟩] (List.replicate (1 * 3) (0 : ℚ))).2
        = [1/2, 1/2, 1/2]
      ∧ ((1 : ℚ)/2 ≠ 0) := by
  constructor
  · have h := mix_single 3 (by norm_num) [(1 : ℚ)/2] 0 1 (by simp) (le_refl 1)
    rw [h]
    norm_num [clampQ, List.replicate]
  · norm_num

/-- C1 (amended): for any channel count `n ≥ 3`, `Mixer::mix` adds each
voice's mono sample into every one of the `n` slots of each output frame —
channels beyond the first two get the same contribution, not silence. -/
theorem C1_gt2_all_channels (n : ℕ) (hn : 3 ≤ n) (data : List ℚ) :
    Mixer.mix n [⟨data, 0⟩] (List.replicate (data.length * n) (0 : ℚ))
      = ([], data.flatMap (fun s => List.replicate n (clampQ s))) := by
  by_cases hd : data = []
  · subst hd
    simpa using mix_degenerate n [] 0 [] (by simp)
  · have h1 : 0 < data.length := List.length_pos.mpr hd
    have h := mix_single n (by omega) data 0 data.length h1 (by omega)
    simpa using h

/-- C1 (witness for the amended theorem at a concrete input). -/
theorem C1_gt2_all_channels_witness :
    Mixer.mix 4 [⟨[(1 : ℚ)], 0⟩] (List.replicate 4 (0 : ℚ))
      = ([], [1, 1, 1, 1]) := by
  have h := C1_gt2_all_channels 4 (by norm_num) [(1 : ℚ)]
  norm_num [clampQ, List.replicate] at h
  exact h

/-- C2 (counterexample): `Mixer::mix` with an empty voice list returns the
buffer untouched — the sample 2 stays 2, while the claimed unconditional
clamp would have produced 1. -/
theorem C2_counterexample :
    Mixer.mix 1 [] [(2 : ℚ)] = ([], [2])
      ∧ clampQ 2 = 1 ∧ ((2 : ℚ) ≠ 1) :=
  ⟨mix_empty 1 [(2 : ℚ)], by norm_num [clampQ], by norm_num⟩

/-- C2 (amended): with an empty voice list `mix` returns the buffer completely
unchanged (the early return skips the clamp); whenever at least one voice is
in the list, every sample of the output buffer is clamped into `[-1, 1]`. -/
theorem C2_clamp_when_nonempty (ch : ℕ) (out : List ℚ) (sounds : List SoundState)
    (hs : sounds ≠ []) :
    Mixer.mix ch [] out = ([], out)
      ∧ (∀ x ∈ (Mixer.mix ch sounds out).2, -1 ≤ x ∧ x ≤ 1) :=
  ⟨mix_empty ch out, mix_output_bounds ch sounds out hs⟩

/-- C2 (witness for the amended theorem at a concrete input). -/
theorem C2_clamp_when_nonempty_witness :
    Mixer.mix 1 [] [(2 : ℚ)] = ([], [2])
      ∧ (∀ x ∈ (Mixer.mix 1 [⟨[(1 : ℚ)/2], 0⟩] [(2 : ℚ)]).2, -1 ≤ x ∧ x ≤ 1) :=
  C2_clamp_when_nonempty 1 [(2 : ℚ)] [⟨[(1 : ℚ)/2], 0⟩] (by simp)

/-- C5 (counterexample): resampling a 127-frame source from 8000 Hz to
16000 Hz yields 255 frames, while the exact value of
`ceil((127 / 8000) * 16000)` is 254 — the `f32` division rounds `127/8000`
up, and the `f32` product then rounds to just above 254. -/
theorem C5_counterexample :
    (SoundAtlas.performResample ⟨List.replicate 127 (0 : ℚ), 8000, 127⟩ 16000).length
        = 255
      ∧ exactCeilFrames 127 8000 16000 = 254 := by
  constructor
  · rw [performResample_length]
    decide
  · decide

/-- C5 (amended): `perform_resample` produces exactly the frame count obtained
by evaluating `ceil((Ns / Rs) * Rt)` in `f32` arithmetic (the division and the
product each rounded to the nearest binary32 value); this can differ by one
from the exact `ceil((Ns / Rs) * Rt)`. -/
theorem C5_resample_count (source : RawSource) (targetRate : ℕ) :
    (SoundAtlas.performResample source targetRate).length
      = targetFramesCount source.frames_count source.sample_rate targetRate := by
  simp [SoundAtlas.performResample]

/-- C6 (counterexample): a `mix` call whose output buffer holds zero frames
removes a 1-frame voice immediately, after it has rendered 0 of its 1 frames —
removal does not wait for the cumulative rendered frame count to reach the
clip's frame count. -/
theorem C6_counterexample :
    Mixer.mix 1 [⟨[(1 : ℚ)], 0⟩] ([] : List ℚ) = ([], []) :=
  mix_degenerate 1 [(1 : ℚ)] 0 [] (by simp)

/-- C6 (amended): across any split of `mix` calls in which every call's buffer
holds at least one frame, a voice started at cursor 0 on a nonempty clip is
still present exactly while the cumulative frame count stays below the clip's
frame count, and the concatenated output depends only on that cumulative
count: the clamped clip samples followed by silence. -/
theorem C6_cumulative_removal (ch : ℕ) (hch : 1 ≤ ch) (data : List ℚ)
    (hd : data ≠ []) (ns : List ℕ) (hns : ∀ n ∈ ns, 1 ≤ n) :
    runCalls ch [⟨data, 0⟩] ns
      = ((if ns.sum < data.length then [⟨data, ns.sum⟩] else []),
         (data.take (min ns.sum data.length)).flatMap
             (fun s => List.replicate ch (clampQ s))
           ++ List.replicate ((ns.sum - data.length) * ch) (0 : ℚ)) := by
  have h1 : 0 < data.length := List.length_pos.mpr hd
  have h := runCalls_single ch hch data ns 0 hns h1
  simpa using h

/-- C6 (witness): a 2-frame clip rendered by two 1-frame calls is removed
exactly at the second call, and the concatenated output is the clamped clip. -/
theorem C6_cumulative_removal_witness :
    runCalls 1 [⟨[(1 : ℚ)/2, 3], 0⟩] [1, 1] = ([], [1/2, 1]) := by
  have h := C6_cumulative_removal 1 (le_refl 1) [(1 : ℚ)/2, 3] (by simp) [1, 1]
    (by intro n hn; simp at hn; omega)
  norm_num [clampQ, List.replicate] at h
  exact h

/-- C7 (counterexample): a single voice whose sample is 2 mixed into a zeroed
2-channel buffer yields the pair (1, 1) after the final clamp, not (2, 2) —
the claimed equality with the raw source sample fails for samples outside
`[-1, 1]`. -/
theorem C7_counterexample :
    (Mixer.mix 2 [⟨[(2 : ℚ)], 0⟩] (List.replicate (1 * 2) (0 : ℚ))).2 = [1, 1]
      ∧ ((1 : ℚ) ≠ 2) := by
  constructor
  · have h := mix_single 2 (by norm_num) [(2 : ℚ)] 0 1 (by simp) (le_refl 1)
    rw [h]
    norm_num [clampQ, List.replicate]
  · norm_num

/-- C7 (amended): with 2 output channels, a single voice mixed into a zeroed
2-channel buffer of matching frame count produces, for each source sample `s`,
the output pair `(clamp s, clamp s)` — both channels get the same unattenuated
value, equal to `(s, s)` whenever `s` lies in `[-1, 1]`. -/
theorem C7_stereo_duplication (data : List ℚ) :
    Mixer.mix 2 [⟨data, 0⟩] (List.replicate (data.length * 2) (0 : ℚ))
      = ([], data.flatMap (fun s => [clampQ s, clampQ s])) := by
  by_cases hd : data = []
  · subst hd
    simpa using mix_degenerate 2 [] 0 [] (by simp)
  · have h1 : 0 < data.length := List.length_pos.mpr hd
    have h := mix_single 2 (by norm_num) data 0 data.length h1 (by omega)
    simp only [Nat.zero_add, Nat.sub_zero, le_refl, if_true, List.drop_zero,
      Nat.sub_self, Nat.zero_mul, List.replicate_zero, List.append_nil,
      min_self, List.take_length, ite_true] at h
    rw [h]
    rfl

/-- C8: every clip offset recorded by `SoundAtlas::build_from_sources` is a
multiple of 16 samples — the buffer is zero-padded to a multiple of 16 before
each clip's offset is taken. -/
theorem C8_offsets_aligned (sources : List (ℕ × RawSource)) (rate : ℕ) :
    ∀ e ∈ (SoundAtlas.buildFromSources sources rate).2, e.2.1 % 16 = 0 :=
  (buildFold_inv rate sources ([], []) (by simp) (by simp) (by simp)).1

/-- C8 (witness): the clip record produced for a single one-sample source has
offset 0, a multiple of 16. -/
theorem C8_offsets_aligned_witness : ((1 : ℕ), (0 : ℕ), (1 : ℕ)).2.1 % 16 = 0 :=
  C8_offsets_aligned [(1, ⟨[(1 : ℚ)], 48000, 1⟩)] 48000 (1, 0, 1)
    (by norm_num [SoundAtlas.buildFromSources, buildStep, processSource, padTo16_eq])

/-- C9: every atlas built by `build_from_sources` has in-bounds clip ranges
(`offset + frames ≤ buffer length`) and pairwise-disjoint half-open sample
ranges for distinct clip records. -/
theorem C9_clip_ranges (sources : List (ℕ × RawSource)) (rate : ℕ) :
    (∀ e ∈ (SoundAtlas.buildFromSources sources rate).2,
        e.2.1 + e.2.2 ≤ (SoundAtlas.buildFromSources sources rate).1.length)
      ∧ ((SoundAtlas.buildFromSources sources rate).2).Pairwise
          (fun a b => a.2.1 + a.2.2 ≤ b.2.1 ∨ b.2.1 + b.2.2 ≤ a.2.1) := by
  have h := buildFold_inv rate sources ([], []) (by simp) (by simp) (by simp)
  exact ⟨h.2.1, h.2.2.imp (fun hab => Or.inl hab)⟩

/-- C9 (witness): in-bounds and disjointness at a concrete two-source atlas. -/
theorem C9_clip_ranges_witness :
    (((1 : ℕ), (0 : ℕ), (1 : ℕ)).2.1 + ((1 : ℕ), (0 : ℕ), (1 : ℕ)).2.2
        ≤ (SoundAtlas.buildFromSources
            [(1, ⟨[(1 : ℚ)], 48000, 1⟩), (2, ⟨[(1 : ℚ), 2], 48000, 2⟩)] 48000).1.length)
      ∧ ((SoundAtlas.buildFromSources
            [(1, ⟨[(1 : ℚ)], 48000, 1⟩), (2, ⟨[(1 : ℚ), 2], 48000, 2⟩)] 48000).2).Pairwise
          (fun a b => a.2.1 + a.2.2 ≤ b.2.1 ∨ b.2.1 + b.2.2 ≤ a.2.1) :=
  ⟨(C9_clip_ranges [(1, ⟨[(1 : ℚ)], 48000, 1⟩), (2, ⟨[(1 : ℚ), 2], 48000, 2⟩)] 48000).1
      (1, 0, 1)
      (by norm_num [SoundAtlas.buildFromSources, buildStep, processSource, padTo16_eq]),
    (C9_clip_ranges [(1, ⟨[(1 : ℚ)], 48000, 1⟩), (2, ⟨[(1 : ℚ), 2], 48000, 2⟩)] 48000).2⟩

/-- C10: the audio callback fills the buffer with zeros before consuming
triggers and mixing, so its result is independent of the buffer's prior
contents: equal mixer/atlas/queue states and equal buffer lengths give equal
results. -/
theorem C10_callback_ignores_buffer (mixerSt : Option (List SoundState))
    (atlasSt : Option (List (ℕ × List ℚ))) (queue : List ℕ) (channels : ℕ)
    (d1 d2 : List ℚ) (hlen : d1.length = d2.length) :
    audioCallback mixerSt atlasSt queue channels d1
      = audioCallback mixerSt atlasSt queue channels d2 := by
  unfold audioCallback
  rw [hlen]

/-- C10 (witness): two callbacks over buffers with different garbage contents
produce the same output. -/
theorem C10_callback_ignores_buffer_witness :
    audioCallback none none [] 1 [(5 : ℚ)] = audioCallback none none [] 1 [(7 : ℚ)] :=
  C10_callback_ignores_buffer none none [] 1 [(5 : ℚ)] [(7 : ℚ)] rfl

/-- C3 (counterexample): `init_load_sound` builds a fresh `IdMap` on every
call, so handle values repeat across successful calls.  Trace: the first
`init_load_sound` succeeds and returns handle 1; the stream's error callback
reports device loss; `maintain_stream` installs a fresh ring (restoring the
consumer) and its rebuild attempt fails because the device is temporarily
gone — an error raised before `self.consumer.take()`, so the consumer stays
in place; the second `init_load_sound`, with the device back, then succeeds
and returns handle value 1 again. -/
theorem C3_counterexample :
    (Player.initLoadSound Player.new [([(1 : ℚ)], 48000)] ⟨true, 48000, 1⟩).2
        = some [1]
      ∧ (Player.initLoadSound
          (Player.maintainStream
            (Player.onDeviceLost
              (Player.initLoadSound Player.new
                [([(1 : ℚ)], 48000)] ⟨true, 48000, 1⟩).1)
            ⟨false, 48000, 1⟩)
          [([(1 : ℚ)], 48000)] ⟨true, 48000, 1⟩).2 = some [1] :=
  ⟨rfl, rfl⟩

/-- C3 (amended): within a single `IdMap` instance, the handles issued by any
sequence of inserts and removes are pairwise distinct — `next_id` only ever
increments, so no remove can cause a value to be issued twice by that map;
uniqueness fails only across `init_load_sound` calls, which build fresh maps. -/
theorem C3_unique_within_map (V : Type) (ops : List (IdOp V)) :
    ((runOps (IdMap.new V) ops).2).Nodup :=
  List.Pairwise.imp (fun hlt => ne_of_lt hlt) (runOps_issued V ops (IdMap.new V)).2

/-- C4 (amended): `play` pushes the handle into the current trigger ring
whenever the ring has room, regardless of whether a stream is open; it never
touches the stream state.  (Pending triggers are then consumed by the callback
once a stream opens — see the C4 counterexample.) -/
theorem C4_play_always_enqueues (st : PlayerModel) (h : ℕ)
    (hq : st.queue.length < 128) :
    (Player.play st h).queue = st.queue ++ [h]
      ∧ (Player.play st h).streamOpen = st.streamOpen := by
  simp [Player.play, hq]

/-- C4 (witness for the amended theorem at a concrete input). -/
theorem C4_play_always_enqueues_witness :
    (Player.play Player.new 7).queue = Player.new.queue ++ [7]
      ∧ (Player.play Player.new 7).streamOpen = Player.new.streamOpen :=
  C4_play_always_enqueues Player.new 7 (by norm_num [Player.new])

/-- C4 (counterexample): a `play 1` issued while no stream is open is retained
in the trigger ring; after `init_load_sound` opens the stream, the first
callback renders the triggered clip (output `[1]`), whereas the identical
run without the early `play` renders silence (`[0]`) — the dropped-trigger
claim fails. -/
theorem C4_counterexample :
    (Player.play Player.new 1).streamOpen = false
      ∧ (Player.runCallback
          (Player.initLoadSound (Player.play Player.new 1)
            [([(1 : ℚ)], 48000)] ⟨true, 48000, 1⟩).1 1 [(0 : ℚ)]).2 = [1]
      ∧ (Player.runCallback
          (Player.initLoadSound Player.new
            [([(1 : ℚ)], 48000)] ⟨true, 48000, 1⟩).1 1 [(0 : ℚ)]).2 = [0] := by
  refine ⟨rfl, ?_, ?_⟩
  · have hst : (Player.initLoadSound (Player.play Player.new 1)
        [([(1 : ℚ)], 48000)] ⟨true, 48000, 1⟩).1
        = { queue := [1], streamOpen := true, mixer := some [],
            atlas := some [(1, [(1 : ℚ)])],
            cachedSources := some [(1, ⟨[(1 : ℚ)], 48000, 1⟩)],
            consumer := false, deviceLost := false } := by
      norm_num [Player.initLoadSound, Player.play, Player.new, Player.buildStream,
        insertAll, IdMap.insert, IdMap.new, clipsOf, SoundAtlas.buildFromSources,
        buildStep, processSource, padTo16_eq]
    rw [hst]
    have hm := mix_single 1 (le_refl 1) [(1 : ℚ)] 0 1 (by simp) (le_refl 1)
    norm_num [clampQ, List.replicate] at hm
    simp [Player.runCallback, audioCallback, atlasLookup, Mixer.addSound,
      List.replicate, hm]
  · have hst : (Player.initLoadSound Player.new
        [([(1 : ℚ)], 48000)] ⟨true, 48000, 1⟩).1
        = { queue := [], streamOpen := true, mixer := some [],
            atlas := some [(1, [(1 : ℚ)])],
            cachedSources := some [(1, ⟨[(1 : ℚ)], 48000, 1⟩)],
            consumer := false, deviceLost := false } := by
      norm_num [Player.initLoadSound, Player.new, Player.buildStream,
        insertAll, IdMap.insert, IdMap.new, clipsOf, SoundAtlas.buildFromSources,
        buildStep, processSource, padTo16_eq]
    rw [hst]
    simp [Player.runCallback, audioCallback, mix_empty, List.replicate]
